import Mathlib

/-!
Verification of the gemini-wrapper upstream CLI bridge.

The Go sources are shallowly embedded: pure helper functions become Lean
functions on `String` / `List Char`; the effectful `Ask` method is modelled
as a pure function of the data it consumes (the captured output blob and
the subprocess exit error), and the interactive transcript collector is
modelled as a function of the finite sequence of lines it consumes.
Go strings are byte sequences; we model them at rune (Char) level, which
agrees with the byte-level code on all the substring / prefix / digit tests
involved because every pattern is a full UTF-8 rune sequence.
-/

namespace GeminiWrapper

/-! ## Go string primitives (`strings` package operations used by the code) -/

/-- The Unicode white-space predicate used by Go `unicode.IsSpace`
(hence by `strings.TrimSpace`). -/
def isGoSpace (c : Char) : Bool :=
  c = ' ' || c = '\t' || c = '\n' || c.val = 11 || c.val = 12 || c = '\r' ||
  c.val = 0x85 || c.val = 0xA0 || c.val = 0x1680 ||
  (0x2000 ≤ c.val && c.val ≤ 0x200A) ||
  c.val = 0x2028 || c.val = 0x2029 || c.val = 0x202F || c.val = 0x205F ||
  c.val = 0x3000

/-- `strings.TrimSpace` on the underlying character list. -/
def trimList (l : List Char) : List Char :=
  ((l.dropWhile isGoSpace).reverse.dropWhile isGoSpace).reverse

/-- Go `strings.TrimSpace`. -/
def trimSpace (s : String) : String :=
  ⟨trimList s.data⟩

/-- Helper for Go `strings.Contains` on character lists: does `sub` occur
as a contiguous sublist of `l`? -/
def containsList (l sub : List Char) : Bool :=
  match l with
  | [] => sub.isEmpty
  | _ :: t => sub.isPrefixOf l || containsList t sub

/-- Go `strings.Contains s sub`. -/
def strContains (s sub : String) : Bool :=
  containsList s.data sub.data

/-- Go `strings.HasPrefix s pre`. -/
def hasPrefixStr (s pre : String) : Bool :=
  pre.data.isPrefixOf s.data

/-! ## `extractLastJSONObject` (src/unnamed/part_004, lines 188-234)

The Go function scans the blob from the end backward with a brace-depth
counter, a quoted-string flag and a backslash-escape flag; `end` marks the
first `}` found outside a string.  We model the scan as a left-to-right
recursion over the reversed character list.  Instead of remembering the
index `end` and slicing at the end, the state carries `acc`, the characters
between the current position and `end` (in forward order); `acc = none`
corresponds to `end == -1` in the source. -/

structure ScanSt where
  depth : Int
  inString : Bool
  escaped : Bool
  acc : Option (List Char)
deriving DecidableEq

/-- Record one more character of the candidate object (no-op before the
closing brace has been seen, i.e. while `acc = none`). -/
def pushAcc (o : Option (List Char)) (c : Char) : Option (List Char) :=
  o.map (c :: ·)

/-- One iteration of the backward scanning loop of `extractLastJSONObject`,
on the character `c` at the current position.  `Sum.inr` is the early
`return outputStr[i : end+1], true`. -/
def scanStep (st : ScanSt) (c : Char) : ScanSt ⊕ List Char :=
  if st.inString then
    if st.escaped then .inl { st with escaped := false, acc := pushAcc st.acc c }
    else if c = '\\' then .inl { st with escaped := true, acc := pushAcc st.acc c }
    else if c = '"' then .inl { st with inString := false, acc := pushAcc st.acc c }
    else .inl { st with acc := pushAcc st.acc c }
  else if c = '"' then .inl { st with inString := true, acc := pushAcc st.acc c }
  else if c = '}' then
    match st.acc with
    | none => .inl { st with depth := st.depth + 1, acc := some [c] }
    | some a => .inl { st with depth := st.depth + 1, acc := some (c :: a) }
  else if c = '{' then
    match st.acc with
    | none => .inl st
    | some a =>
      if st.depth - 1 = 0 then .inr (c :: a)
      else .inl { st with depth := st.depth - 1, acc := some (c :: a) }
  else .inl { st with acc := pushAcc st.acc c }

/-- Run the backward scan over the (already reversed) character list;
`some` is the extracted object of an early return, `none` is the
`return "", false` after the loop. -/
def extractAux : List Char → ScanSt → Option (List Char)
  | [], _ => none
  | c :: cs, st =>
    match scanStep st c with
    | .inl st' => extractAux cs st'
    | .inr res => some res

/-- `extractLastJSONObject` from the headless bridge: `some json` models
`(json, true)` and `none` models `("", false)`. -/
def extractLastJSONObject (outputStr : String) : Option String :=
  (extractAux outputStr.data.reverse ⟨0, false, false, none⟩).map (⟨·⟩)

/-- Run the scan without early return: `none` when the loop would have
returned early, otherwise the state after consuming the whole list. -/
def runList : List Char → ScanSt → Option ScanSt
  | [], st => some st
  | c :: cs, st =>
    match scanStep st c with
    | .inl st' => runList cs st'
    | .inr _ => none

/-! ## JSON values and `json.Unmarshal` into `GeminiResponse`

`parseGeminiOutput` feeds the extracted object text to Go
`encoding/json.Unmarshal` with target type `GeminiResponse`.  We model the
JSON text grammar and the decoding rules Go applies to this target shape:
unknown fields are ignored, absent or `null` fields keep their zero value,
a type mismatch or syntax error makes the whole unmarshal fail, keys match
struct fields case-insensitively and a later duplicate key overwrites an
earlier one.  (Surrogate-pair `\u` escapes are not recombined; no claim
touches such input.)  Recursion is by a fuel parameter chosen large enough
for the whole input. -/

inductive Jv where
  | jnull
  | jbool (b : Bool)
  | jnum (raw : List Char)
  | jstr (s : String)
  | jarr (elems : List Jv)
  | jobj (fields : List (String × Jv))

/-- JSON insignificant whitespace. -/
def jsonWs (c : Char) : Bool :=
  c = ' ' || c = '\t' || c = '\n' || c = '\r'

def skipWs (l : List Char) : List Char :=
  l.dropWhile jsonWs

def hexVal (c : Char) : Option Nat :=
  if '0' ≤ c ∧ c ≤ '9' then some (c.toNat - 48)
  else if 'a' ≤ c ∧ c ≤ 'f' then some (c.toNat - 87)
  else if 'A' ≤ c ∧ c ≤ 'F' then some (c.toNat - 55)
  else none

/-- Characters that may appear in a JSON number token. -/
def numChar (c : Char) : Bool :=
  c.isDigit || c = '-' || c = '+' || c = '.' || c = 'e' || c = 'E'

/-- Consume one or more digits, returning the rest. -/
def parseDigits1 (l : List Char) : Option (List Char) :=
  match l with
  | c :: _ => if c.isDigit then some (l.dropWhile Char.isDigit) else none
  | [] => none

/-- Validate the optional exponent part of a JSON number. -/
def validExpPart : List Char → Bool
  | [] => true
  | c :: r =>
    if c = 'e' || c = 'E' then
      let r2 := match r with
        | s :: r3 => if s = '+' || s = '-' then r3 else s :: r3
        | [] => []
      match parseDigits1 r2 with
      | some [] => true
      | _ => false
    else false

/-- Validate the optional fraction then exponent parts of a JSON number. -/
def validFracExp : List Char → Bool
  | [] => true
  | c :: r =>
    if c = '.' then
      match parseDigits1 r with
      | some rest => validExpPart rest
      | none => false
    else validExpPart (c :: r)

/-- Validate a complete JSON number token. -/
def validNum (l : List Char) : Bool :=
  let l1 := match l with
    | '-' :: r => r
    | _ => l
  match l1 with
  | [] => false
  | '0' :: r => validFracExp r
  | c :: _ => if c.isDigit then validFracExp (l1.dropWhile Char.isDigit) else false

def digitsToNat (l : List Char) : Nat :=
  l.foldl (fun n c => n * 10 + (c.toNat - 48)) 0

/-- Decode a number token into a Go `int`; Go rejects fractions and
exponents when the target field is an integer. -/
def intFromRaw (l : List Char) : Option Int :=
  match l with
  | '-' :: r =>
    if !r.isEmpty && r.all Char.isDigit then some (-(digitsToNat r : Int)) else none
  | _ =>
    if !l.isEmpty && l.all Char.isDigit then some ((digitsToNat l : Int)) else none

/-- Parse a JSON string body (after the opening quote), accumulating
decoded characters in reverse. -/
def parseStrAux : Nat → List Char → List Char → Option (String × List Char)
  | 0, _, _ => none
  | _ + 1, [], _ => none
  | fuel + 1, c :: t, acc =>
    if c = '"' then some (⟨acc.reverse⟩, t)
    else if c = '\\' then
      match t with
      | [] => none
      | e :: t2 =>
        if e = '"' then parseStrAux fuel t2 ('"' :: acc)
        else if e = '\\' then parseStrAux fuel t2 ('\\' :: acc)
        else if e = '/' then parseStrAux fuel t2 ('/' :: acc)
        else if e = 'b' then parseStrAux fuel t2 ('\x08' :: acc)
        else if e = 'f' then parseStrAux fuel t2 ('\x0c' :: acc)
        else if e = 'n' then parseStrAux fuel t2 ('\n' :: acc)
        else if e = 'r' then parseStrAux fuel t2 ('\r' :: acc)
        else if e = 't' then parseStrAux fuel t2 ('\t' :: acc)
        else if e = 'u' then
          match t2 with
          | h1 :: h2 :: h3 :: h4 :: t3 =>
            match hexVal h1, hexVal h2, hexVal h3, hexVal h4 with
            | some v1, some v2, some v3, some v4 =>
              let n := ((v1 * 16 + v2) * 16 + v3) * 16 + v4
              let ch := if 0xD800 ≤ n ∧ n ≤ 0xDFFF then '�' else Char.ofNat n
              parseStrAux fuel t3 (ch :: acc)
            | _, _, _, _ => none
          | _ => none
        else none
    else parseStrAux fuel t (c :: acc)

mutual

/-- Parse one JSON value. -/
def parseVal : Nat → List Char → Option (Jv × List Char)
  | 0, _ => none
  | fuel + 1, l =>
    match skipWs l with
    | [] => none
    | c :: t =>
      if c = '"' then (parseStrAux (fuel + 1) t []).map (fun p => (Jv.jstr p.1, p.2))
      else if c = '{' then parseObjRest fuel t []
      else if c = '[' then parseArrRest fuel t []
      else if c = 't' then
        match t with
        | 'r' :: 'u' :: 'e' :: r => some (Jv.jbool true, r)
        | _ => none
      else if c = 'f' then
        match t with
        | 'a' :: 'l' :: 's' :: 'e' :: r => some (Jv.jbool false, r)
        | _ => none
      else if c = 'n' then
        match t with
        | 'u' :: 'l' :: 'l' :: r => some (Jv.jnull, r)
        | _ => none
      else if c = '-' || c.isDigit then
        let tok := (c :: t).takeWhile numChar
        if validNum tok then some (Jv.jnum tok, (c :: t).drop tok.length) else none
      else none

/-- Parse the members of an object after `{` (or after a `,`); the closing
brace alone is only legal while no member has been read. -/
def parseObjRest : Nat → List Char → List (String × Jv) → Option (Jv × List Char)
  | 0, _, _ => none
  | fuel + 1, l, acc =>
    match skipWs l with
    | [] => none
    | c :: t =>
      if c = '}' then
        if acc.isEmpty then some (Jv.jobj [], t) else none
      else if c = '"' then
        match parseStrAux (fuel + 1) t [] with
        | none => none
        | some (key, r1) =>
          match skipWs r1 with
          | ':' :: r2 =>
            match parseVal fuel r2 with
            | none => none
            | some (v, r3) =>
              match skipWs r3 with
              | ',' :: r4 => parseObjRest fuel r4 (acc ++ [(key, v)])
              | '}' :: r4 => some (Jv.jobj (acc ++ [(key, v)]), r4)
              | _ => none
          | _ => none
      else none

/-- Parse the elements of an array after `[` (or after a `,`). -/
def parseArrRest : Nat → List Char → List Jv → Option (Jv × List Char)
  | 0, _, _ => none
  | fuel + 1, l, acc =>
    match skipWs l with
    | [] => none
    | c :: t =>
      if c = ']' then
        if acc.isEmpty then some (Jv.jarr [], t) else none
      else
        match parseVal fuel (c :: t) with
        | none => none
        | some (v, r1) =>
          match skipWs r1 with
          | ',' :: r2 => parseArrRest fuel r2 (acc ++ [v])
          | ']' :: r2 => some (Jv.jarr (acc ++ [v]), r2)
          | _ => none

end

/-- Parse a complete JSON text (a value followed only by whitespace). -/
def jsonParse (s : String) : Option Jv :=
  match parseVal (2 * s.data.length + 8) s.data with
  | some (v, rest) => if (skipWs rest).isEmpty then some v else none
  | none => none

/-! ## Decoding into the `GeminiResponse` Go struct -/

/-- `Error` field of `GeminiResponse` (a pointer to struct in Go,
so the whole field may be absent). -/
structure GeminiError where
  type : String
  message : String
  code : Int
deriving DecidableEq

/-- `GeminiResponse`: the JSON response of the gemini CLI headless mode.
`statsModels` flattens `Stats.Models[name].Tokens.Total`. -/
structure GeminiResponse where
  response : String
  statsModels : List (String × Int)
  error : Option GeminiError
deriving DecidableEq

def asciiLower (c : Char) : Char :=
  if 'A' ≤ c ∧ c ≤ 'Z' then Char.ofNat (c.toNat + 32) else c

/-- Go JSON field matching is case-insensitive (ASCII suffices here). -/
def eqFoldAscii (a b : String) : Bool :=
  a.data.map asciiLower == b.data.map asciiLower

/-- The JSON member that Go assigns to struct field `name`: the last
matching key wins. -/
def lookupGo (fields : List (String × Jv)) (name : String) : Option Jv :=
  ((fields.filter (fun kv => eqFoldAscii kv.1 name)).getLast?).map (·.2)

/-- Decode a `string` struct field (absent / `null` keep the zero value). -/
def decStringField (v : Option Jv) : Option String :=
  match v with
  | none => some ""
  | some Jv.jnull => some ""
  | some (Jv.jstr s) => some s
  | some _ => none

/-- Decode an `int` struct field. -/
def decIntField (v : Option Jv) : Option Int :=
  match v with
  | none => some 0
  | some Jv.jnull => some 0
  | some (Jv.jnum raw) => intFromRaw raw
  | some _ => none

/-- Decode one value of the `Stats.Models` map:
`struct { Tokens struct { Total int } }`. -/
def decModelEntry (v : Jv) : Option Int :=
  match v with
  | Jv.jobj fields =>
    match lookupGo fields "tokens" with
    | none => some 0
    | some Jv.jnull => some 0
    | some (Jv.jobj tf) => decIntField (lookupGo tf "total")
    | some _ => none
  | Jv.jnull => some 0
  | _ => none

/-- Decode the `Stats.Models` map. -/
def decModels (v : Option Jv) : Option (List (String × Int)) :=
  match v with
  | none => some []
  | some Jv.jnull => some []
  | some (Jv.jobj fields) =>
    fields.mapM (fun kv => (decModelEntry kv.2).map (fun n => (kv.1, n)))
  | some _ => none

/-- Decode the `Stats` struct field. -/
def decStats (v : Option Jv) : Option (List (String × Int)) :=
  match v with
  | none => some []
  | some Jv.jnull => some []
  | some (Jv.jobj fields) => decModels (lookupGo fields "models")
  | some _ => none

/-- Decode the `Error` pointer field. -/
def decErrorField (v : Option Jv) : Option (Option GeminiError) :=
  match v with
  | none => some none
  | some Jv.jnull => some none
  | some (Jv.jobj fields) =>
    match decStringField (lookupGo fields "type"),
          decStringField (lookupGo fields "message"),
          decIntField (lookupGo fields "code") with
    | some ty, some msg, some cd => some (some ⟨ty, msg, cd⟩)
    | _, _, _ => none
  | some _ => none

/-- `json.Unmarshal([]byte(jsonStr), &response)` with target
`GeminiResponse`; `none` models a non-nil unmarshal error. -/
def unmarshalGeminiResponse (s : String) : Option GeminiResponse :=
  match jsonParse s with
  | some (Jv.jobj fields) =>
    match decStringField (lookupGo fields "response"),
          decStats (lookupGo fields "stats"),
          decErrorField (lookupGo fields "error") with
    | some resp, some stats, some err => some ⟨resp, stats, err⟩
    | _, _, _ => none
  | some Jv.jnull => some ⟨"", [], none⟩
  | some _ => none
  | none => none

/-- `parseGeminiOutput` (src/unnamed/part_004, lines 149-162): extract the
last JSON object, then unmarshal it; `none` models `(GeminiResponse{}, false)`. -/
def parseGeminiOutput (outputStr : String) : Option GeminiResponse :=
  (extractLastJSONObject outputStr).bind unmarshalGeminiResponse

/-! ## Status classifier (`detectUpstreamStatus`, lines 164-186) -/

structure GeminiStatus where
  httpStatus : Int
  code : String
  message : String
deriving DecidableEq

/-- The raw-blob rate-limit patterns of `detectUpstreamStatus`. -/
def rateLimitPhrase (outputStr : String) : Bool :=
  strContains outputStr "\"code\": 429" || strContains outputStr "status 429" ||
  strContains outputStr "Too Many Requests" ||
  strContains outputStr "rateLimitExceeded" ||
  strContains outputStr "RESOURCE_EXHAUSTED"

/-- The fixed status synthesized for a recognized rate-limit phrasing. -/
def rateLimitedStatus : GeminiStatus :=
  ⟨429, "RESOURCE_EXHAUSTED", "Upstream rate limited or model capacity exhausted"⟩

/-- `detectUpstreamStatus` from the headless bridge.  The first branch
mirrors `&GeminiStatus{HTTPStatus: code, Message: msg}` (zero-valued
`Code`) followed by the conditional `status.Code = Type`. -/
def detectUpstreamStatus (outputStr : String) (response : Option GeminiResponse) :
    Option GeminiStatus :=
  match response with
  | some r =>
    match r.error with
    | some e =>
      if e.code ≠ 0 then
        let base : GeminiStatus := ⟨e.code, "", e.message⟩
        if e.type ≠ "" then some { base with code := e.type } else some base
      else if rateLimitPhrase outputStr then some rateLimitedStatus else none
    | none => if rateLimitPhrase outputStr then some rateLimitedStatus else none
  | none => if rateLimitPhrase outputStr then some rateLimitedStatus else none

/-! ## The headless `Ask` (lines 46-140)

`Ask` is modelled as a pure function of the question, the model hint, the
captured combined output `outputStr`, and the text of the `CombinedOutput`
error (`none` when the subprocess exited successfully).  `AskResult.ok`
models `(answer, status, nil)`, `AskResult.err` models
`("", status, error)` with the error message text. -/

inductive AskResult where
  | ok (answer : String) (status : Option GeminiStatus)
  | err (msg : String) (status : Option GeminiStatus)
deriving DecidableEq

/-- `status != nil && status.HTTPStatus == http.StatusTooManyRequests`. -/
def is429 (status : Option GeminiStatus) : Bool :=
  match status with
  | some st => st.httpStatus == 429
  | none => false

def Ask (question model outputStr : String) (cmdErr : Option String) : AskResult :=
  let status := detectUpstreamStatus outputStr none
  match cmdErr with
  | some e =>
    if strContains outputStr "ModelNotFoundError" || strContains outputStr "not found" then
      .err ("model not found: the model \x27" ++ model ++
        "\x27 doesn\x27t exist or isn\x27t available. Use \x27gemini-2.5-flash\x27, \x27gemini-2.5-flash-lite\x27, \x27gemini-2.5-pro\x27, or omit model for auto-selection") status
    else if strContains outputStr "authentication" || strContains outputStr "auth" then
      .err "authentication error: make sure ~/.gemini is mounted correctly and you\x27re authenticated" status
    else
      match parseGeminiOutput outputStr with
      | some response =>
        let status2 := detectUpstreamStatus outputStr (some response)
        match response.error with
        | some er =>
          let answer := trimSpace response.response
          if is429 status2 && answer ≠ "" then .ok answer status2
          else .err ("gemini error: " ++ er.type ++ " - " ++ er.message) status2
        | none =>
          let answer := trimSpace response.response
          if answer ≠ "" then .ok answer status2
          else .err ("failed to execute gemini CLI: " ++ e ++ " (output: " ++ outputStr ++ ")") status2
      | none =>
        .err ("failed to execute gemini CLI: " ++ e ++ " (output: " ++ outputStr ++ ")") status
  | none =>
    match parseGeminiOutput outputStr with
    | none => .ok (trimSpace outputStr) status
    | some response =>
      let status2 := detectUpstreamStatus outputStr (some response)
      match response.error with
      | some er =>
        let answer := trimSpace response.response
        if is429 status2 && answer ≠ "" then .ok answer status2
        else
          let errorMsg := "gemini error: " ++ er.type ++ " - " ++ er.message
          if strContains errorMsg "ModelNotFoundError" || strContains errorMsg "not found" then
            .err "model not found: the specified model doesn\x27t exist or isn\x27t available. Try using \x27gemini-2.5-flash\x27 or don\x27t specify a model for auto-selection" status2
          else .err errorMsg status2
      | none =>
        let answer := trimSpace response.response
        if answer = "" then .err "received empty response from gemini" status2
        else .ok answer status2

/-- `AskWithEnv` of the headless bridge (lines 142-147): the body only
forwards to `Ask`; the `envVars` argument is not consulted. -/
def AskWithEnv (question model : String) (envVars : List (String × String))
    (outputStr : String) (cmdErr : Option String) : AskResult :=
  Ask question model outputStr cmdErr

/-! ## HTTP handlers (src/unnamed/part_004, lines 332-457)

The handlers are modelled as pure functions parameterized by the bridge
operation `ask` they would invoke; `req = none` models a failed
`c.Bind`.  The constructors record the HTTP status class of the JSON
response (400 / 500 / 200). -/

structure AskRequest where
  question : String
  model : String
deriving DecidableEq

inductive AskHandlerResult where
  | badRequest (errMsg : String)
  | serverError (errMsg : String) (status : Option GeminiStatus)
  | okAnswer (answer : String) (status : Option GeminiStatus)
deriving DecidableEq

/-- Handler for the `/api/ask` endpoint. -/
def handleAsk (ask : String → String → AskResult) (req : Option AskRequest) :
    AskHandlerResult :=
  match req with
  | none => .badRequest "Invalid request format"
  | some r =>
    if r.question = "" then .badRequest "Question is required"
    else
      match ask r.question r.model with
      | .ok a st => .okAnswer a st
      | .err m st => .serverError m st

inductive APIResult where
  | badRequest (msg : String)
  | serverError (msg : String)
  | okAnswer (model answer : String) (status : Option GeminiStatus)
deriving DecidableEq

/-- Handler for the `/v1beta/models/:model` endpoint; the request body is
the list of `contents`, each a list of part texts. -/
def handleGeminiAPI (ask : String → String → AskResult) (model : String)
    (req : Option (List (List String))) : APIResult :=
  match req with
  | none => .badRequest "Invalid request body"
  | some contents =>
    match contents with
    | [] => .badRequest "contents[0].parts[0].text is required"
    | parts :: _ =>
      match parts with
      | [] => .badRequest "contents[0].parts[0].text is required"
      | text :: _ =>
        if text = "" then .badRequest "text content cannot be empty"
        else
          match ask text model with
          | .ok a st => .okAnswer model a st
          | .err m _ => .serverError m

/-! ## ANSI stripping (src/gemini_service.go, lines 17-18 and 364-367)

`ansiEscapeRegex` is the alternation
`ESC \[ [0-9;?]* [a-zA-Z]  |  ESC \] [^\BEL]* \BEL  |  ESC \] 11 ;? ESC \\
 |  ESC [=>] .*? [a-zA-Z]  |  ESC \[ [0-9;]* [mGKHfJhlr]`
and `stripANSI` is `ReplaceAllString(str, "")`.  Go regexp semantics are
leftmost-first, so at each position the alternatives are tried in order;
every alternative starts with ESC, so matches only start at an ESC.  The
character classes make each alternative deterministic (no backtracking
changes the outcome), which the matcher below implements directly. -/

def isAsciiAlpha (c : Char) : Bool :=
  ('a' ≤ c && c ≤ 'z') || ('A' ≤ c && c ≤ 'Z')

def isDigitSemiQ (c : Char) : Bool :=
  c.isDigit || c = ';' || c = '?'

def isDigitSemi (c : Char) : Bool :=
  c.isDigit || c = ';'

def finalCSI (c : Char) : Bool :=
  c = 'm' || c = 'G' || c = 'K' || c = 'H' || c = 'f' || c = 'J' ||
  c = 'h' || c = 'l' || c = 'r'

/-- Alternatives 1 and 5, after `ESC [`: a run of `[0-9;?]` ended by a
letter, else a run of `[0-9;]` ended by one of `mGKHfJhlr`. -/
def matchAfterBracket (l : List Char) : Option (List Char) :=
  let alt1 :=
    match l.dropWhile isDigitSemiQ with
    | c :: t => if isAsciiAlpha c then some t else none
    | [] => none
  match alt1 with
  | some r => some r
  | none =>
    match l.dropWhile isDigitSemi with
    | c :: t => if finalCSI c then some t else none
    | [] => none

/-- Rest of the list after the first BEL character, if any. -/
def findBel : List Char → Option (List Char)
  | [] => none
  | c :: t => if c = '\x07' then some t else findBel t

/-- Alternatives 2 and 3, after `ESC ]`: everything through the first BEL,
else the literal `11 ;? ESC \`. -/
def matchOSC (l : List Char) : Option (List Char) :=
  match findBel l with
  | some r => some r
  | none =>
    match l with
    | '1' :: '1' :: ';' :: '\x1b' :: '\\' :: t => some t
    | '1' :: '1' :: '\x1b' :: '\\' :: t => some t
    | _ => none

/-- Alternative 4, after `ESC =` or `ESC >`: lazily scan to the first
letter, failing at a newline (`.` does not match newline). -/
def matchLazyAlpha : List Char → Option (List Char)
  | [] => none
  | c :: t =>
    if isAsciiAlpha c then some t
    else if c = '\n' then none
    else matchLazyAlpha t

/-- Try to match `ansiEscapeRegex` at the head of the list, returning the
rest after the match. -/
def ansiMatch : List Char → Option (List Char)
  | [] => none
  | c :: t =>
    if c = '\x1b' then
      match t with
      | [] => none
      | d :: u =>
        if d = '[' then matchAfterBracket u
        else if d = ']' then matchOSC u
        else if d = '=' || d = '>' then matchLazyAlpha u
        else none
    else none

/-- `ReplaceAllString(str, "")`: repeatedly delete the leftmost match.
Every match consumes at least two characters, so `fuel = length` always
suffices; at `fuel = 0` the rest is returned unchanged. -/
def stripANSIAux : Nat → List Char → List Char
  | 0, l => l
  | _ + 1, [] => []
  | fuel + 1, c :: t =>
    match ansiMatch (c :: t) with
    | some rest => stripANSIAux fuel rest
    | none => c :: stripANSIAux fuel t

/-- `stripANSI` from the interactive bridge. -/
def stripANSI (str : String) : String :=
  ⟨stripANSIAux str.data.length str.data⟩

/-! ## Noise classification (`shouldSkipLine`, `isPromptLine`) -/

/-- The numbered-menu-item test: first character `1`..`9`, second `.`
(Go indexes bytes; at character level this coincides, since a multi-byte
rune neither begins with an ASCII digit byte nor is an ASCII digit). -/
def numberedHead (trimmed : String) : Bool :=
  match trimmed.data with
  | c1 :: c2 :: _ => ('1' ≤ c1 && c1 ≤ '9') && c2 = '.'
  | _ => false

/-- `shouldSkipLine` (src/gemini_service.go, lines 154-207). -/
def shouldSkipLine (line : String) : Bool :=
  let trimmed := trimSpace line
  if trimmed = "" then true
  else if strContains line "░░░" || strContains line "███" ||
    strContains line "█████" || strContains line "╭──" ||
    strContains line "│" || strContains line "╰──" then true
  else if strContains line "GEMINI" || strContains line "with Gemini" ||
    strContains line "Tips for getting started" ||
    strContains line "Ask questions, edit files, or run commands" ||
    strContains line "Be specific for the best results" ||
    strContains line "Create GEMINI.md files" ||
    strContains line "customize your interactions" ||
    strContains line "/help for more information" ||
    strContains line "directory." ||
    strContains line "Gemini 3 Flash and Pro" ||
    strContains line "Enable \"Preview features\"" ||
    strContains line "Learn more at" ||
    strContains line "Warning you are running" ||
    strContains line "This warning can be disabled" then true
  else if strContains line "no sandbox" || strContains line "Auto (Gemini" ||
    strContains line "Type your message" || strContains line "/model" ||
    hasPrefixStr trimmed "~" || hasPrefixStr trimmed ">" then true
  else if numberedHead trimmed then true
  else false

/-- `isPromptLine` (src/gemini_service.go, lines 209-213). -/
def isPromptLine (line : String) : Bool :=
  strContains line "Type your message" ||
  (trimSpace line ≠ "" && hasPrefixStr (trimSpace line) "~")

/-- The ANSI/Noise Filter of the spec:
`filterLine(raw) = (clean, isNoise)` with `clean = stripANSI raw` and
`isNoise = shouldSkipLine clean` (the reader goroutine applies
`shouldSkipLine` to the stripped line). -/
def filterLine (raw : String) : String × Bool :=
  (stripANSI raw, shouldSkipLine (stripANSI raw))

/-! ## Transcript collector (`askQuestion`, src/gemini_service.go 227-321)

The response-collection loop is modelled over the finite list of lines
read from the output channel; exhausting the list models the overall
timeout firing with no further output.  `acc` is the `strings.Builder`
content and `collecting` the flag of the source. -/

inductive CollectResult where
  | answer (s : String)
  | errMsg (s : String)
deriving DecidableEq

def collectLoop (question : String) : List String → String → Bool → CollectResult
  | [], acc, _ =>
    if acc ≠ "" then .answer (trimSpace acc)
    else .errMsg "timeout waiting for gemini response"
  | line :: rest, acc, collecting =>
    if isPromptLine line then
      if collecting then
        let result := trimSpace acc
        if result = "" then .errMsg "no response from gemini" else .answer result
      else collectLoop question rest acc collecting
    else if shouldSkipLine line then collectLoop question rest acc collecting
    else if strContains line question then collectLoop question rest acc collecting
    else if strContains line "Waiting for auth" then
      .errMsg "authentication required during question processing"
    else if trimSpace line ≠ "" then
      collectLoop question rest (acc ++ line ++ "\n") true
    else collectLoop question rest acc collecting

/-- `askQuestion` restricted to its collection loop: consume `lines` with
an empty builder and `collecting = false`. -/
def askQuestion (question : String) (lines : List String) : CollectResult :=
  collectLoop question lines "" false

/-- The builder content produced by a list of collected lines
(each line is written followed by a newline). -/
def concatNL : List String → String
  | [] => ""
  | l :: ls => l ++ "\n" ++ concatNL ls

/-- The transcript collector as the (amended) claim C8 describes it: keep
every line that is not a prompt line, not noise, not an echo of the
question and not the awaiting-authentication marker; a prompt line after
at least one kept line ends collection with the trimmed newline-joined
kept lines; an authentication marker line that reaches its check aborts;
exhaustion with no kept line is the timeout failure. -/
def collectSpec (question : String) : List String → List String → CollectResult
  | [], kept =>
    if kept.isEmpty then .errMsg "timeout waiting for gemini response"
    else .answer (trimSpace (concatNL kept))
  | line :: rest, kept =>
    if isPromptLine line then
      if kept.isEmpty then collectSpec question rest kept
      else .answer (trimSpace (concatNL kept))
    else if shouldSkipLine line then collectSpec question rest kept
    else if strContains line question then collectSpec question rest kept
    else if strContains line "Waiting for auth" then
      .errMsg "authentication required during question processing"
    else collectSpec question rest (kept ++ [line])

/-! ## The status classifier as claim C4 words it -/

/-- `detectUpstreamStatus` as described by the spec and claim C4: three
priorities in order — a numeric non-zero error code is normalized with
`code` set (unconditionally) to the error kind; otherwise a recognized
rate-limit phrasing in the blob yields the fixed 429 status; otherwise
absent. -/
def detectUpstreamStatusSpec (outputStr : String) (response : Option GeminiResponse) :
    Option GeminiStatus :=
  let rateLimited :=
    strContains outputStr "\"code\": 429" || strContains outputStr "status 429" ||
    strContains outputStr "Too Many Requests" ||
    strContains outputStr "rateLimitExceeded" ||
    strContains outputStr "RESOURCE_EXHAUSTED"
  match response.bind GeminiResponse.error with
  | some e =>
    if e.code ≠ 0 then
      some { httpStatus := e.code, code := e.type, message := e.message }
    else if rateLimited then
      some ⟨429, "RESOURCE_EXHAUSTED", "Upstream rate limited or model capacity exhausted"⟩
    else none
  | none =>
    if rateLimited then
      some ⟨429, "RESOURCE_EXHAUSTED", "Upstream rate limited or model capacity exhausted"⟩
    else none

/-! ## A grammar of balanced JSON-object texts (for claim C1)

`Seg` covers the texts built from (a) characters that are not quotes,
backslashes or braces, (b) complete string literals whose body contains
no quote and no backslash, and (c) balanced `{…}` pairs.  Every
syntactically valid JSON object text whose string literals contain no
backslash escape decomposes this way (its interior is a sequence of
string literals, structural characters, numbers and keywords with
balanced nested braces outside strings). -/

inductive Seg : List Char → Prop where
  | nil : Seg []
  | chr : ∀ (c : Char) (t : List Char),
      c ∉ ['"', '\\', '{', '}'] → Seg t → Seg (c :: t)
  | str : ∀ (s t : List Char),
      (∀ c ∈ s, c ≠ '"' ∧ c ≠ '\\') → Seg t → Seg ('"' :: s ++ '"' :: t)
  | obj : ∀ (i t : List Char),
      Seg i → Seg t → Seg ('{' :: i ++ '}' :: t)

/-- The text of a JSON object with interior `inner`. -/
def jsonObjStr (inner : List Char) : String :=
  ⟨'{' :: inner ++ ['}']⟩

/-! ## Concrete inputs used by specific claims -/

/-- The blob of claim C5 (the spec test-vector). -/
def blob429 : String :=
  "Attempt 1 failed with status 429. [\x7b\"error\":\x7b\"code\":429\x7d\x7d] \x7b\"response\":\"ok\",\"stats\":\x7b\"models\":\x7b\x7d\x7d\x7d"

/-- The JSON object text at the end of `blob429`. -/
def obj429 : String :=
  "\x7b\"response\":\"ok\",\"stats\":\x7b\"models\":\x7b\x7d\x7d\x7d"

/-- Unmarshalling `obj429`. -/
def resp429 : GeminiResponse := ⟨"ok", [], none⟩

/-- A valid JSON object text containing a backslash-escaped quote:
`{"a":"\"}"}` (the value of key `a` is the two-character string `"}`). -/
def jsonEscCex : String := "\x7b\"a\":\"\\\"\x7d\"\x7d"

/-- Blob for the C3 counterexample: a rate-limited error response whose
answer text contains the substring `auth`. -/
def c3out : String :=
  "\x7b\"response\":\"oauth\",\"error\":\x7b\"type\":\"E\",\"message\":\"m\",\"code\":429\x7d\x7d"

def c3resp : GeminiResponse := ⟨"oauth", [], some ⟨"E", "m", 429⟩⟩

/-- Blob for the C3 witness. -/
def w3out : String :=
  "\x7b\"response\":\"hi\",\"error\":\x7b\"type\":\"RateLimit\",\"message\":\"slow\",\"code\":429\x7d\x7d"

def w3resp : GeminiResponse := ⟨"hi", [], some ⟨"RateLimit", "slow", 429⟩⟩

/-! ## Claim C10 -/

/-- C10: in the headless bridge `AskWithEnv(question, model, envVars)`
returns exactly the result of `Ask(question, model)` on the same captured
output and subprocess error; the `envVars` argument is ignored, so the
result is also independent of it. -/
theorem askWithEnv_eq_ask (question model outputStr : String) (cmdErr : Option String)
    (envVars envVars2 : List (String × String)) :
    AskWithEnv question model envVars outputStr cmdErr = Ask question model outputStr cmdErr ∧
    AskWithEnv question model envVars outputStr cmdErr =
      AskWithEnv question model envVars2 outputStr cmdErr :=
  ⟨rfl, rfl⟩

/-! ## Claim C6 -/

/-- C6: a request whose question string is empty is answered with the
400-class invalid-input response by both handlers, and the result does not
depend on the bridge operation `ask` at all (taking `f` and `g` arbitrary),
i.e. the bridge is never invoked for such a request. -/
theorem emptyQuestion_rejected (f g : String → String → AskResult) (m mdl : String)
    (rest : List String) (more : List (List String)) :
    handleAsk f (some ⟨"", m⟩) = .badRequest "Question is required" ∧
    handleAsk f (some ⟨"", m⟩) = handleAsk g (some ⟨"", m⟩) ∧
    handleGeminiAPI f mdl (some (("" :: rest) :: more)) =
      .badRequest "text content cannot be empty" ∧
    handleGeminiAPI f mdl (some (("" :: rest) :: more)) =
      handleGeminiAPI g mdl (some (("" :: rest) :: more)) :=
  ⟨rfl, rfl, rfl, rfl⟩

/-! ## Claim C4 -/

/-- C4: `detectUpstreamStatus` checks exactly the three priorities in
order as the claim states them: a non-zero numeric error code is
normalized into `⟨code, kind, message⟩`; otherwise a known rate-limit
phrasing in the blob yields the fixed 429/RESOURCE_EXHAUSTED status;
otherwise the status is absent. -/
theorem detectUpstreamStatus_priorities (outputStr : String)
    (response : Option GeminiResponse) :
    detectUpstreamStatus outputStr response = detectUpstreamStatusSpec outputStr response := by
  cases response with
  | none => rfl
  | some r =>
    cases h : r.error with
    | none =>
      simp [detectUpstreamStatus, detectUpstreamStatusSpec, h, rateLimitPhrase,
        rateLimitedStatus, Option.bind]
    | some e =>
      by_cases hc : e.code = 0
      · simp [detectUpstreamStatus, detectUpstreamStatusSpec, h, hc, rateLimitPhrase,
          rateLimitedStatus, Option.bind]
      · by_cases ht : e.type = ""
        · simp [detectUpstreamStatus, detectUpstreamStatusSpec, h, hc, ht, Option.bind]
        · simp [detectUpstreamStatus, detectUpstreamStatusSpec, h, hc, ht, Option.bind]

/-! ## Claim C5 -/

/-- C5: on the spec test blob, extraction returns exactly
`{"response":"ok","stats":{"models":{}}}`, that object unmarshals to the
response with text `ok`, and the classifier on the blob with that parsed
response reports `httpStatus = 429`. -/
theorem parse429_blob_concrete :
    extractLastJSONObject blob429 = some obj429 ∧
    parseGeminiOutput blob429 = some resp429 ∧
    (detectUpstreamStatus blob429 (some resp429)).map GeminiStatus.httpStatus = some 429 := by
  refine ⟨by decide, by decide, by decide⟩

/-! ## Claim C2 -/

/-- C2 counterexample: on the entirely empty blob with a successful exit,
`Ask` does succeed, returning the empty trimmed blob as the answer with a
nil error — contradicting the claim that `Ask` does not succeed with an
answer when the blob is empty. -/
theorem ask_noJSON_cex :
    extractLastJSONObject "" = none ∧
    Ask "q" "m" "" none = .ok "" none :=
  ⟨by decide, by decide⟩

/-- C2 (amended): whenever the subprocess exits without error and the blob
contains no extractable balanced JSON object, `Ask` returns the
whitespace-trimmed raw blob as the answer with no error — including when
the blob is empty, in which case the answer is the empty string. -/
theorem ask_noJSON_returns_trimmed (question model outputStr : String)
    (h : extractLastJSONObject outputStr = none) :
    Ask question model outputStr none =
      .ok (trimSpace outputStr) (detectUpstreamStatus outputStr none) := by
  unfold Ask
  simp [parseGeminiOutput, h]

theorem ask_noJSON_returns_trimmed_witness :
    extractLastJSONObject "plain text output" = none ∧
    Ask "why" "" "plain text output" none =
      .ok (trimSpace "plain text output") (detectUpstreamStatus "plain text output" none) :=
  ⟨by decide, ask_noJSON_returns_trimmed "why" "" "plain text output" (by decide)⟩

/-! ## Claim C3 -/

/-- C3 counterexample: all the hypotheses of the claim hold for `c3out`
with a failed subprocess — the parsed response carries error info, the
classified status has `httpStatus = 429` and the response text trims to
the non-empty answer `oauth` — yet `Ask` returns the authentication
pre-check error (the blob contains the substring `auth`), discarding the
answer. -/
theorem ask_rateLimited_cex :
    parseGeminiOutput c3out = some c3resp ∧
    c3resp.error = some ⟨"E", "m", 429⟩ ∧
    is429 (detectUpstreamStatus c3out (some c3resp)) = true ∧
    trimSpace c3resp.response = "oauth" ∧
    Ask "q" "m" c3out (some "exit status 1") =
      .err "authentication error: make sure ~/.gemini is mounted correctly and you\x27re authenticated" none :=
  ⟨by decide, by decide, by decide, by decide, by decide⟩

/-- C3 (amended): whenever the parsed response carries error info, the
classified status has `httpStatus = 429` and the response text trims to a
non-empty answer, `Ask` returns that answer with the status and a nil
error — provided the subprocess exited successfully, or the blob contains
none of the pre-check substrings `ModelNotFoundError`, `not found`,
`authentication`, `auth`. -/
theorem ask_rateLimited_salvages_answer
    (question model outputStr : String) (cmdErr : Option String)
    (resp : GeminiResponse) (er : GeminiError)
    (hp : parseGeminiOutput outputStr = some resp)
    (he : resp.error = some er)
    (h429 : is429 (detectUpstreamStatus outputStr (some resp)) = true)
    (hans : trimSpace resp.response ≠ "")
    (hpre : cmdErr = none ∨
      (strContains outputStr "ModelNotFoundError" = false ∧
       strContains outputStr "not found" = false ∧
       strContains outputStr "authentication" = false ∧
       strContains outputStr "auth" = false)) :
    Ask question model outputStr cmdErr =
      .ok (trimSpace resp.response) (detectUpstreamStatus outputStr (some resp)) := by
  rcases hpre with rfl | ⟨h1, h2, h3, h4⟩
  · unfold Ask
    simp [hp, he, h429, hans]
  · cases cmdErr with
    | none =>
      unfold Ask
      simp [hp, he, h429, hans]
    | some e =>
      unfold Ask
      simp [h1, h2, h3, h4, hp, he, h429, hans]

theorem ask_rateLimited_salvages_answer_witness :
    parseGeminiOutput w3out = some w3resp ∧
    Ask "q" "" w3out none =
      .ok (trimSpace w3resp.response) (detectUpstreamStatus w3out (some w3resp)) :=
  ⟨by decide,
    ask_rateLimited_salvages_answer "q" "" w3out none w3resp ⟨"RateLimit", "slow", 429⟩
      (by decide) (by decide) (by decide) (by decide) (Or.inl rfl)⟩

/-! ## Claim C7 -/

theorem ansiMatch_none_of_ne (c : Char) (t : List Char) (h : c ≠ '\x1b') :
    ansiMatch (c :: t) = none := by
  simp [ansiMatch, h]

theorem stripANSIAux_no_esc (n : Nat) :
    ∀ l : List Char, (∀ c ∈ l, c ≠ '\x1b') → stripANSIAux n l = l := by
  induction n with
  | zero => intro l _; rfl
  | succ n ih =>
    intro l h
    cases l with
    | nil => rfl
    | cons c t =>
      rw [stripANSIAux, ansiMatch_none_of_ne c t (h c (by simp))]
      rw [ih t (fun x hx => h x (by simp [hx]))]

theorem stripANSI_no_esc (s : String) (h : ∀ c ∈ s.data, c ≠ '\x1b') :
    stripANSI s = s := by
  unfold stripANSI
  rw [stripANSIAux_no_esc _ _ h]

/-- C7 counterexample: for the raw line `ESC ESC [0m [0m`, one
application of the filter yields the clean line `ESC [0m`, classified as
signal (`isNoise = false`); filtering that clean line again strips the now
re-assembled escape sequence, leaving the empty line, classified as noise
(`isNoise = true`).  The noise classification is therefore not idempotent
under filtering. -/
theorem filterLine_idem_cex :
    (filterLine "\x1b\x1b[0m[0m").2 = false ∧
    (filterLine (filterLine "\x1b\x1b[0m[0m").1).2 = true :=
  ⟨by decide, by decide⟩

/-- C7 (amended): for every raw line whose clean output contains no
remaining ESC character — in particular every line the regex strips
completely in one pass — applying the filter to the clean output yields
the same `isNoise` classification. -/
theorem filterLine_noise_idem (raw : String)
    (h : '\x1b' ∉ (filterLine raw).1.data) :
    (filterLine (filterLine raw).1).2 = (filterLine raw).2 := by
  have h2 : ∀ c ∈ (stripANSI raw).data, c ≠ '\x1b' := by
    intro c hc heq
    exact h (heq ▸ hc)
  show shouldSkipLine (stripANSI (stripANSI raw)) = shouldSkipLine (stripANSI raw)
  rw [stripANSI_no_esc _ h2]

theorem filterLine_noise_idem_witness :
    '\x1b' ∉ (filterLine "hi \x1b[31mthere").1.data ∧
    (filterLine (filterLine "hi \x1b[31mthere").1).2 = (filterLine "hi \x1b[31mthere").2 :=
  ⟨by decide, filterLine_noise_idem "hi \x1b[31mthere" (by decide)⟩

/-! ## Claim C9 -/

/-- C9: fed any number of noise banner lines, then `Hello there.`, then an
empty line, then a re-displayed prompt line, the collector transitions to
Done at the prompt line and the collected answer is exactly
`Hello there.` (the question is assumed not to occur in the answer line,
otherwise echo suppression would drop it). -/
theorem collector_hello_scenario (banners : List String) (question promptLine : String)
    (hb : ∀ l ∈ banners, shouldSkipLine l = true)
    (hp : isPromptLine promptLine = true)
    (hq : strContains "Hello there." question = false) :
    askQuestion question (banners ++ ["Hello there.", "", promptLine]) =
      .answer "Hello there." := by
  unfold askQuestion
  induction banners with
  | nil =>
    have e1 : isPromptLine "Hello there." = false := by decide
    have e2 : shouldSkipLine "Hello there." = false := by decide
    have e3 : strContains "Hello there." "Waiting for auth" = false := by decide
    have e4 : ¬ (trimSpace "Hello there." = "") := by decide
    have e5 : isPromptLine "" = false := by decide
    have e6 : shouldSkipLine "" = true := by decide
    simp only [List.nil_append]
    rw [collectLoop]
    simp only [e1, e2, hq, e3, Bool.false_eq_true, if_false]
    rw [if_pos e4, collectLoop]
    simp only [e5, e6, Bool.false_eq_true, if_false, if_true]
    rw [collectLoop]
    simp only [hp, if_true]
    decide
  | cons b bs ih =>
    simp only [List.cons_append]
    rw [collectLoop]
    have hskip : shouldSkipLine b = true := hb b (by simp)
    have ihx := ih (fun l hl => hb l (by simp [hl]))
    cases hpl : isPromptLine b with
    | true => simpa [hpl] using ihx
    | false => simpa [hpl, hskip] using ihx

theorem collector_hello_scenario_witness :
    (∀ l ∈ ["Tips for getting started"], shouldSkipLine l = true) ∧
    isPromptLine "Type your message" = true ∧
    strContains "Hello there." "hi" = false ∧
    askQuestion "hi" (["Tips for getting started"] ++ ["Hello there.", "", "Type your message"]) =
      .answer "Hello there." :=
  ⟨by decide, by decide, by decide,
    collector_hello_scenario ["Tips for getting started"] "hi" "Type your message"
      (by decide) (by decide) (by decide)⟩

/-! ## Claim C8: helper lemmas -/

theorem strAppend_assoc (a b c : String) : a ++ b ++ c = a ++ (b ++ c) := by
  apply String.ext
  simp [String.data_append]

theorem trimSpace_eq_empty_iff (s : String) :
    trimSpace s = "" ↔ ∀ c ∈ s.data, isGoSpace c := by
  constructor
  · intro h c hc
    have hd : trimList s.data = [] := congrArg String.data h
    unfold trimList at hd
    rw [List.reverse_eq_nil_iff, List.dropWhile_eq_nil_iff] at hd
    have hsplit := List.takeWhile_append_dropWhile (p := isGoSpace) (l := s.data)
    rw [← hsplit] at hc
    rcases List.mem_append.mp hc with h1 | h2
    · exact List.mem_takeWhile_imp h1
    · exact hd c (List.mem_reverse.mpr h2)
  · intro h
    apply String.ext
    show trimList s.data = []
    unfold trimList
    rw [List.dropWhile_eq_nil_iff.mpr (fun x hx => h x hx)]
    rfl

theorem concatNL_append_one (kept : List String) (line : String) :
    concatNL (kept ++ [line]) = concatNL kept ++ line ++ "\n" := by
  induction kept with
  | nil =>
    apply String.ext
    simp [concatNL, String.data_append]
  | cons l ls ih =>
    show l ++ "\n" ++ concatNL (ls ++ [line]) = l ++ "\n" ++ concatNL ls ++ line ++ "\n"
    rw [ih]
    apply String.ext
    simp [String.data_append]

theorem concatNL_cons_ne (l : String) (ls : List String) : concatNL (l :: ls) ≠ "" := by
  intro h
  have hd : (concatNL (l :: ls)).data = [] := congrArg String.data h
  simp only [concatNL, String.data_append] at hd
  simp at hd

theorem trimSpace_concatNL_ne (l : String) (ls : List String) (h : trimSpace l ≠ "") :
    trimSpace (concatNL (l :: ls)) ≠ "" := by
  intro hc
  apply h
  rw [trimSpace_eq_empty_iff] at hc ⊢
  intro c hcl
  apply hc
  show c ∈ (l ++ "\n" ++ concatNL ls).data
  simp only [String.data_append, List.mem_append]
  exact Or.inl (Or.inl hcl)

theorem trim_ne_of_not_skip (l : String) (h : shouldSkipLine l = false) :
    ¬ (trimSpace l = "") := by
  intro he
  rw [shouldSkipLine] at h
  simp [he] at h

/-- The collection loop of `askQuestion`, started at any intermediate
state, agrees with the claim-worded collector: the builder holds the
newline-joined kept lines and the `collecting` flag records whether any
line was kept.  (Collected lines always have non-blank trimmed content,
which makes the `no response from gemini` branch unreachable.) -/
theorem collectLoop_eq_spec (question : String) :
    ∀ (lines kept : List String), (∀ l ∈ kept, trimSpace l ≠ "") →
      collectLoop question lines (concatNL kept) (!kept.isEmpty) =
        collectSpec question lines kept := by
  intro lines
  induction lines with
  | nil =>
    intro kept hk
    cases kept with
    | nil => rfl
    | cons l ls =>
      simp [collectLoop, collectSpec, concatNL_cons_ne l ls]
  | cons line rest ih =>
    intro kept hk
    rw [collectLoop, collectSpec]
    cases hpl : isPromptLine line with
    | true =>
      simp only [hpl, if_true]
      cases kept with
      | nil =>
        simp only [List.isEmpty_nil, Bool.not_true, Bool.false_eq_true, if_false, if_true]
        exact ih [] hk
      | cons l ls =>
        have hne := trimSpace_concatNL_ne l ls (hk l (by simp))
        simp [hne]
    | false =>
      simp only [hpl, Bool.false_eq_true, if_false]
      cases hsk : shouldSkipLine line with
      | true =>
        simp only [hsk, if_true]
        exact ih kept hk
      | false =>
        simp only [hsk, Bool.false_eq_true, if_false]
        cases hec : strContains line question with
        | true =>
          simp only [hec, if_true]
          exact ih kept hk
        | false =>
          simp only [hec, Bool.false_eq_true, if_false]
          cases hau : strContains line "Waiting for auth" with
          | true => simp only [hau, if_true]
          | false =>
            simp only [hau, Bool.false_eq_true, if_false]
            have ht : ¬ (trimSpace line = "") := trim_ne_of_not_skip line hsk
            rw [if_pos ht]
            have e : concatNL kept ++ line ++ "\n" = concatNL (kept ++ [line]) :=
              (concatNL_append_one kept line).symm
            rw [e]
            have e2 : (true : Bool) = !(kept ++ [line]).isEmpty := by simp
            rw [e2]
            refine ih (kept ++ [line]) ?_
            intro x hx
            rcases List.mem_append.mp hx with h1 | h2
            · exact hk x h1
            · simp at h2
              subst h2
              exact ht

/-- Whenever the claim-worded collector answers, the answer is the
trimmed newline-joined sequence of kept lines, none of which contains the
verbatim question text. -/
theorem collectSpec_answer_src (question : String) :
    ∀ (lines kept : List String) (s : String),
      (∀ l ∈ kept, strContains l question = false) →
      collectSpec question lines kept = .answer s →
      ∃ ks : List String, s = trimSpace (concatNL ks) ∧
        ∀ l ∈ ks, strContains l question = false := by
  intro lines
  induction lines with
  | nil =>
    intro kept s hk h
    cases kept with
    | nil => simp [collectSpec] at h
    | cons l ls =>
      refine ⟨l :: ls, ?_, hk⟩
      rw [show collectSpec question [] (l :: ls) =
        .answer (trimSpace (concatNL (l :: ls))) from rfl] at h
      cases h
      rfl
  | cons line rest ih =>
    intro kept s hk h
    rw [collectSpec] at h
    cases hpl : isPromptLine line with
    | true =>
      rw [hpl, if_pos rfl] at h
      cases kept with
      | nil =>
        simp only [List.isEmpty_nil, if_true] at h
        exact ih [] s hk h
      | cons l ls =>
        refine ⟨l :: ls, ?_, hk⟩
        simp only [List.isEmpty_cons, Bool.false_eq_true, if_false] at h
        cases h
        rfl
    | false =>
      rw [hpl] at h
      simp only [Bool.false_eq_true, if_false] at h
      cases hsk : shouldSkipLine line with
      | true =>
        rw [hsk, if_pos rfl] at h
        exact ih kept s hk h
      | false =>
        rw [hsk] at h
        simp only [Bool.false_eq_true, if_false] at h
        cases hec : strContains line question with
        | true =>
          rw [hec, if_pos rfl] at h
          exact ih kept s hk h
        | false =>
          rw [hec] at h
          simp only [Bool.false_eq_true, if_false] at h
          cases hau : strContains line "Waiting for auth" with
          | true =>
            rw [hau, if_pos rfl] at h
            cases h
          | false =>
            rw [hau] at h
            simp only [Bool.false_eq_true, if_false] at h
            refine ih (kept ++ [line]) s ?_ h
            intro x hx
            rcases List.mem_append.mp hx with h1 | h2
            · exact hk x h1
            · simp at h2
              subst h2
              exact hec

/-! ## Claim C8 -/

/-- C8 counterexample: when collection never produced any text (here: no
output lines at all before the timeout), the collector fails with the
timeout error, not with the no-response error the claim names; the
`no response from gemini` failure is a different error, produced only at a
prompt-terminated empty collection, which cannot occur since every
collected line has non-blank content. -/
theorem askQuestion_cex :
    askQuestion "q" [] = .errMsg "timeout waiting for gemini response" ∧
    CollectResult.errMsg "timeout waiting for gemini response" ≠
      CollectResult.errMsg "no response from gemini" :=
  ⟨by decide, by decide⟩

/-- C8 (amended): over any finite sequence of consumed lines, the
collector behaves exactly as the claim-worded `collectSpec` describes —
it returns the whitespace-trimmed concatenation of all collected
(non-prompt, non-noise, non-echo, non-auth-marker) lines, fails with the
timeout error if collection never produced any text, and fails with the
authentication-required error when an awaiting-authentication line that
is not itself a prompt/noise/echo line is observed mid-exchange;
moreover, any returned answer is the trimmed concatenation of kept lines
none of which contains the verbatim question text. -/
theorem askQuestion_spec (question : String) (lines : List String) :
    askQuestion question lines = collectSpec question lines [] ∧
    (∀ s, askQuestion question lines = .answer s →
      ∃ ks : List String, s = trimSpace (concatNL ks) ∧
        ∀ l ∈ ks, strContains l question = false) := by
  have he : askQuestion question lines = collectSpec question lines [] := by
    have h0 := collectLoop_eq_spec question lines [] (by intro l hl; cases hl)
    exact h0
  refine ⟨he, ?_⟩
  intro s hs
  rw [he] at hs
  exact collectSpec_answer_src question lines [] s (by intro l hl; cases hl) hs

/-! ## Claim C1: the backward scan on balanced trailing objects -/

theorem runList_cons_inl (c : Char) (cs : List Char) (st st1 : ScanSt)
    (h : scanStep st c = .inl st1) : runList (c :: cs) st = runList cs st1 := by
  rw [runList, h]

theorem runList_cons_inr (c : Char) (cs : List Char) (st : ScanSt) (r : List Char)
    (h : scanStep st c = .inr r) : runList (c :: cs) st = none := by
  rw [runList, h]

theorem extractAux_cons_inl (c : Char) (cs : List Char) (st st1 : ScanSt)
    (h : scanStep st c = .inl st1) : extractAux (c :: cs) st = extractAux cs st1 := by
  rw [extractAux, h]

theorem extractAux_cons_inr (c : Char) (cs : List Char) (st : ScanSt) (r : List Char)
    (h : scanStep st c = .inr r) : extractAux (c :: cs) st = some r := by
  rw [extractAux, h]

theorem runList_append_of (a : List Char) :
    ∀ (b : List Char) (st st2 : ScanSt), runList a st = some st2 →
      runList (a ++ b) st = runList b st2 := by
  induction a with
  | nil =>
    intro b st st2 h
    simp [runList] at h
    subst h
    rfl
  | cons c cs ih =>
    intro b st st2 h
    cases hs : scanStep st c with
    | inl st1 =>
      rw [runList_cons_inl c cs st st1 hs] at h
      rw [List.cons_append, runList_cons_inl c (cs ++ b) st st1 hs]
      exact ih b st1 st2 h
    | inr r =>
      rw [runList_cons_inr c cs st r hs] at h
      exact Option.noConfusion h

theorem extractAux_append_of (a : List Char) :
    ∀ (b : List Char) (st st2 : ScanSt), runList a st = some st2 →
      extractAux (a ++ b) st = extractAux b st2 := by
  induction a with
  | nil =>
    intro b st st2 h
    simp [runList] at h
    subst h
    rfl
  | cons c cs ih =>
    intro b st st2 h
    cases hs : scanStep st c with
    | inl st1 =>
      rw [runList_cons_inl c cs st st1 hs] at h
      rw [List.cons_append, extractAux_cons_inl c (cs ++ b) st st1 hs]
      exact ih b st1 st2 h
    | inr r =>
      rw [runList_cons_inr c cs st r hs] at h
      exact Option.noConfusion h

/-- Scanning a run of in-string characters (no quote, no backslash)
keeps the scanner inside the string and records the characters. -/
theorem runList_inString (r : List Char) :
    ∀ (d : Int) (b : List Char), (∀ c ∈ r, c ≠ '"' ∧ c ≠ '\\') →
      runList r ⟨d, true, false, some b⟩ =
        some ⟨d, true, false, some (r.reverse ++ b)⟩ := by
  induction r with
  | nil => intro d b _; rfl
  | cons c cs ih =>
    intro d b h
    obtain ⟨h1, h2⟩ := h c (by simp)
    have hs : scanStep ⟨d, true, false, some b⟩ c = .inl ⟨d, true, false, some (c :: b)⟩ := by
      simp [scanStep, h1, h2, pushAcc]
    rw [runList_cons_inl c cs _ _ hs]
    rw [ih d (c :: b) (fun x hx => h x (by simp [hx]))]
    simp [List.append_assoc]

/-- Core invariant: scanning the reversal of any `Seg` text from a state
that is outside strings, past the candidate end (`acc` set) and at brace
depth at least 1 consumes it completely, returns to the same depth and
prepends the text to the accumulator. -/
theorem runList_seg {l : List Char} (h : Seg l) :
    ∀ (d : Int) (a : List Char), 1 ≤ d →
      runList l.reverse ⟨d, false, false, some a⟩ =
        some ⟨d, false, false, some (l ++ a)⟩ := by
  induction h with
  | nil => intro d a _; rfl
  | chr c t hc ht ih =>
    intro d a hd
    simp only [List.mem_cons, List.mem_singleton, not_or] at hc
    obtain ⟨h1, h2, h3, h4⟩ := hc
    rw [List.reverse_cons]
    rw [runList_append_of t.reverse [c] _ _ (ih d a hd)]
    have hs : scanStep ⟨d, false, false, some (t ++ a)⟩ c =
        .inl ⟨d, false, false, some (c :: (t ++ a))⟩ := by
      simp [scanStep, h1, h3, h4, pushAcc]
    rw [runList_cons_inl c [] _ _ hs]
    rfl
  | str s t hs ht ih =>
    intro d a hd
    have hrev : ('"' :: s ++ '"' :: t).reverse =
        t.reverse ++ ('"' :: (s.reverse ++ ['"'])) := by
      simp [List.reverse_cons, List.reverse_append, List.append_assoc]
    rw [hrev]
    rw [runList_append_of t.reverse _ _ _ (ih d a hd)]
    have hs1 : scanStep ⟨d, false, false, some (t ++ a)⟩ '"' =
        .inl ⟨d, true, false, some ('"' :: (t ++ a))⟩ := by
      simp [scanStep, pushAcc]
    rw [runList_cons_inl _ _ _ _ hs1]
    have hrun := runList_inString s.reverse d ('"' :: (t ++ a))
      (fun x hx => hs x (List.mem_reverse.mp hx))
    rw [runList_append_of s.reverse _ _ _ hrun]
    have hs2 : scanStep ⟨d, true, false, some (s.reverse.reverse ++ ('"' :: (t ++ a)))⟩ '"' =
        .inl ⟨d, false, false, some ('"' :: (s.reverse.reverse ++ ('"' :: (t ++ a))))⟩ := by
      simp [scanStep, pushAcc]
    rw [runList_cons_inl _ _ _ _ hs2]
    simp [List.reverse_reverse, List.append_assoc, runList]
  | obj i t hi ht ihi iht =>
    intro d a hd
    have hrev : ('{' :: i ++ '}' :: t).reverse =
        t.reverse ++ ('}' :: (i.reverse ++ ['{'])) := by
      simp [List.reverse_cons, List.reverse_append, List.append_assoc]
    rw [hrev]
    rw [runList_append_of t.reverse _ _ _ (iht d a hd)]
    have hs1 : scanStep ⟨d, false, false, some (t ++ a)⟩ '}' =
        .inl ⟨d + 1, false, false, some ('}' :: (t ++ a))⟩ := by
      simp [scanStep]
    rw [runList_cons_inl _ _ _ _ hs1]
    rw [runList_append_of i.reverse _ _ _ (ihi (d + 1) ('}' :: (t ++ a)) (by omega))]
    have hnz : ¬ (d + 1 - 1 = 0) := by omega
    have hdz : ¬ (d = 0) := by omega
    have hs2 : scanStep ⟨d + 1, false, false, some (i ++ '}' :: (t ++ a))⟩ '{' =
        .inl ⟨d + 1 - 1, false, false, some ('{' :: (i ++ '}' :: (t ++ a)))⟩ := by
      simp [scanStep, hnz, hdz]
    rw [runList_cons_inl _ _ _ _ hs2]
    have hde : d + 1 - 1 = d := by omega
    rw [hde]
    simp [List.append_assoc, runList]

/-- C1 counterexample: `jsonEscCex` is the syntactically valid JSON object
text `{"a":"\"}"}` (its single string value contains a backslash-escaped
quote); with the empty prefix in front of it, `extractLastJSONObject`
returns found = false rather than the object: scanning backwards, the
escaped quote is misread as a string delimiter, inverting the scanner
string state for the rest of the blob. -/
theorem extractLastJSONObject_cex :
    extractLastJSONObject ("" ++ jsonEscCex) = none ∧
    extractLastJSONObject ("" ++ jsonEscCex) ≠ some jsonEscCex :=
  ⟨by decide, by decide⟩

/-- C1 (amended): for every prefix string (in particular one containing
unmatched braces inside quoted substrings) followed by a syntactically
valid JSON object text whose string literals contain no backslash, the
extractor returns exactly that object text with found = true.  The
trailing object is `{` `inner` `}` for any interior in the `Seg` grammar,
which covers every backslash-free JSON object interior. -/
theorem extractLastJSONObject_roundtrip (p : String) (inner : List Char) (h : Seg inner) :
    extractLastJSONObject (p ++ jsonObjStr inner) = some (jsonObjStr inner) := by
  unfold extractLastJSONObject jsonObjStr
  have hd : (p ++ (⟨'{' :: inner ++ ['}']⟩ : String)).data.reverse =
      '}' :: (inner.reverse ++ ('{' :: p.data.reverse)) := by
    simp [String.data_append, List.reverse_append, List.reverse_cons, List.append_assoc]
  rw [hd]
  have hs1 : scanStep ⟨0, false, false, none⟩ '}' = .inl ⟨1, false, false, some ['}']⟩ := by
    simp [scanStep]
  rw [extractAux_cons_inl _ _ _ _ hs1]
  rw [extractAux_append_of inner.reverse _ _ _ (runList_seg h 1 ['}'] (by omega))]
  have hs2 : scanStep ⟨1, false, false, some (inner ++ ['}'])⟩ '{' =
      .inr ('{' :: (inner ++ ['}'])) := by
    simp [scanStep]
  rw [extractAux_cons_inr _ _ _ _ hs2]
  rfl

theorem extractLastJSONObject_roundtrip_witness :
    extractLastJSONObject ("log \"\x7d\" end " ++ jsonObjStr ['"', 'a', '"', ':', '1']) =
      some (jsonObjStr ['"', 'a', '"', ':', '1']) :=
  extractLastJSONObject_roundtrip "log \"\x7d\" end " ['"', 'a', '"', ':', '1']
    (Seg.str ['a'] [':', '1'] (by decide)
      (Seg.chr ':' ['1'] (by decide) (Seg.chr '1' [] (by decide) Seg.nil)))

end GeminiWrapper
